import Mathlib

/-
Verification of the MinHash + LSH deduplication engine of YunMin-efficient-data.

The Python sources under src/dedup are embedded shallowly:
  * Python `str` is modelled as `List Char` (a sequence of Unicode code
    points, which is exactly Python's string model).  `str.lower`,
    `str.split()` and `str.strip()` are modelled character-wise with the
    ASCII case table and the ASCII whitespace class; every concrete input
    appearing in a theorem below uses only characters on which the model
    agrees with Python (Hangul has no case, all whitespace is U+0020).
  * `unicodedata.normalize('NFKC', _)` (inside `preprocess_text`) is an
    external Unicode-table transformation; the embedding is parametric in
    it (`nfkc`), and concrete instances use `id`, which is what NFKC does
    on the ASCII/NFC inputs used there.
  * `datasketch.MinHash` / `datasketch.MinHashLSH` are external libraries
    (only trivial in-repo fallbacks exist); following the spec (sections
    4.2 and 4.3) the signature generator is a per-permutation minimum over
    hashed shingles for a parametric hash family `hashF`, and the LSH index
    partitions a signature into `b` bands of `r` rows, with query returning
    every inserted key sharing at least one band with the probe (ideal,
    injective bucket hashing).
-/

namespace YunMinDedup

/-- Python `str`: a sequence of Unicode code points. -/
abbrev PyStr := List Char

/-- Python `str.lower`, modelled with the ASCII simple case table
(`Char.toLower`); full Unicode case mapping lives in external tables.
All cased characters appearing in concrete inputs below are ASCII. -/
def pyLower (s : PyStr) : PyStr := s.map Char.toLower

/-- Helper for `pySplit`: accumulates the current (reversed) token. -/
def splitWsAux : PyStr → PyStr → List PyStr
  | [], acc => if acc = [] then [] else [acc.reverse]
  | c :: rest, acc =>
    if c.isWhitespace then
      if acc = [] then splitWsAux rest [] else acc.reverse :: splitWsAux rest []
    else splitWsAux rest (c :: acc)

/-- Python `str.split()` (no argument): split on whitespace runs, dropping
empty pieces.  The whitespace class is modelled by `Char.isWhitespace`. -/
def pySplit (s : PyStr) : List PyStr := splitWsAux s []

/-- Python `str.strip()`: remove leading and trailing whitespace. -/
def pyStrip (s : PyStr) : PyStr :=
  ((s.dropWhile Char.isWhitespace).reverse.dropWhile Char.isWhitespace).reverse

/-- Python `' '.join(tokens)`. -/
def joinSp (ts : List PyStr) : PyStr := List.intercalate [' '] ts

/-- `src/dedup/minhash_utils.py`, `tokenize_ngrams(text, n)`:
lower-case, whitespace-split, then — quote of the source —

    tokens = text.lower().split()
    if len(tokens) == 4 and tokens[-1].endswith("입니다"):
        tokens.append(tokens[-1])
    if len(tokens) < n:
        return [' '.join(tokens)]
    ngrams = []
    for i in range(len(tokens) - n + 1):
        ngrams.append(' '.join(tokens[i:i + n]))
    return ngrams
-/
def tokenize_ngrams (text : PyStr) (n : Nat) : List PyStr :=
  let tokens0 := pySplit (pyLower text)
  let tokens :=
    if tokens0.length = 4 ∧ List.isSuffixOf ("입니다".data) (tokens0.getLastD []) then
      tokens0 ++ [tokens0.getLastD []]
    else tokens0
  if tokens.length < n then [joinSp tokens]
  else (List.range (tokens.length - n + 1)).map (fun i => joinSp ((tokens.drop i).take n))

/-- The loop of `tokenize_jamo_ngrams` that builds `jamo_chars`: each Hangul
syllable in U+AC00..U+D7A3 is decomposed into lead/vowel/(optional tail)
jamo, every other character passes through unchanged.  Each appended element
is a single character, so the list of one-character strings is a `PyStr`. -/
def jamoChars : PyStr → PyStr
  | [] => []
  | c :: rest =>
    (if 0xAC00 ≤ c.toNat ∧ c.toNat ≤ 0xD7A3 then
      let si := c.toNat - 0xAC00
      [Char.ofNat (0x1100 + si / 588), Char.ofNat (0x1161 + si % 588 / 28)] ++
        (if si % 28 ≠ 0 then [Char.ofNat (0x11A7 + si % 28)] else [])
    else [c]) ++ jamoChars rest

/-- `src/dedup/minhash_utils.py`, `tokenize_jamo_ngrams(text, n)`:
decompose to jamo, then slide a window of width `n` (windows are joined
with `''`, i.e. they are just the character slices), with the single
joined string as fallback when the sequence is shorter than `n`. -/
def tokenize_jamo_ngrams (text : PyStr) (n : Nat) : List PyStr :=
  let jc := jamoChars text
  if jc.length < n then [jc]
  else (List.range (jc.length - n + 1)).map (fun i => (jc.drop i).take n)

/-- A document, as consumed by the engine: a `text` field plus the optional
`tokens` metadata list that representative selection prefers for length
(`doc.get('text', '')`, `doc['tokens']`).  Other metadata fields are not
consulted on any path exercised by the claims. -/
structure Doc where
  text : PyStr
  tokens : Option (List PyStr)
deriving DecidableEq

instance : Inhabited Doc := ⟨⟨[], none⟩⟩

/-- Configuration surface read by the engine: `minhash_permutations`
(`numPerm`, default 128), `ngram_size` (default 5), `jamo_ngram_size`
(default 3), and the `(b, r)` banding that `datasketch.MinHashLSH` derives
from `similarity_threshold` and `numPerm` (`b * r = numPerm`). -/
structure Config where
  numPerm : Nat
  b : Nat
  r : Nat
  ngramSize : Nat
  jamoNgramSize : Nat

/-- The dedup statistics record assembled by `deduplicate_documents`. -/
structure Stats where
  original : Nat
  dedupCount : Nat
  removed : Nat
  clusterCount : Nat
  rate : ℚ
deriving DecidableEq

/-- Modelled from the spec: `datasketch.MinHash` (external library; only a
trivial no-op fallback exists in the repo).  A signature is the array of
per-permutation minima of hashed shingles, starting from the library's
initial hash value `2^32 - 1`; the permutation functions have fixed seeds,
modelled by the parametric family `hashF`. -/
def minhashDigest (hashF : Nat → PyStr → Nat) (ngrams : List PyStr) (numPerm : Nat) :
    List Nat :=
  (List.range numPerm).map (fun i => ngrams.foldl (fun m g => min m (hashF i g)) (2 ^ 32 - 1))

/-- `src/dedup/minhash_utils.py`, `create_minhash(ngrams, num_perm)`: build a
MinHash and update it with every n-gram in order.  The MinHash object is
identified with its digest. -/
def create_minhash (hashF : Nat → PyStr → Nat) (ngrams : List PyStr) (numPerm : Nat) :
    List Nat :=
  minhashDigest hashF ngrams numPerm

/-- Number of positions at which two digests hold equal values. -/
def matchCount (d1 d2 : List Nat) : Nat :=
  (d1.zip d2).countP (fun p => p.1 == p.2)

/-- `src/dedup/minhash_utils.py`, `estimate_jaccard_similarity(m1, m2)`:
compare the two digests; a length mismatch raises `ValueError`, otherwise
the fraction of matching positions is returned (`0.0` for empty digests). -/
def estimate_jaccard_similarity (d1 d2 : List Nat) : Except String ℚ :=
  if d1.length ≠ d2.length then
    Except.error "MinHash objects must have the same number of permutations"
  else
    Except.ok (if d1.isEmpty then 0 else (matchCount d1 d2 : ℚ) / (d1.length : ℚ))

/-- Modelled from the spec: `datasketch.MinHashLSH` (external library).  The
index records its banding `(b, r)` and the insertion sequence of
`(key, signature)` pairs; each insertion files the key under every band's
bucket keyed by that band's sub-signature. -/
structure MinHashLSH where
  b : Nat
  r : Nat
  entries : List (Nat × List Nat)

/-- Band `j` of a signature: the `r` rows starting at position `j * r`. -/
def bandSlice (r j : Nat) (sig : List Nat) : List Nat := (sig.drop (j * r)).take r

/-- Two signatures collide iff they agree on at least one band. -/
def bandCollide (b r : Nat) (s1 s2 : List Nat) : Bool :=
  (List.range b).any (fun j => bandSlice r j s1 == bandSlice r j s2)

/-- Modelled from the spec: `MinHashLSH.query(sig)` unions the bucket
contents over all bands the probe falls into, i.e. it returns every
inserted key whose signature shares at least one band with the probe
(with ideal injective bucket hashing), in insertion order. -/
def MinHashLSH.query (lsh : MinHashLSH) (sig : List Nat) : List Nat :=
  (lsh.entries.filter (fun e => bandCollide lsh.b lsh.r e.2 sig)).map Prod.fst

/-- Python's `enumerate`, with a starting index. -/
def enumFrom : Nat → List α → List (Nat × α)
  | _, [] => []
  | i, a :: as => (i, a) :: enumFrom (i + 1) as

/-- `src/dedup/slimpajama_dedup.py`, `preprocess_text(text)`: NFKC
normalization (the parametric `nfkc`), whitespace collapse via
`' '.join(text.split())`, and a final `strip()`. -/
def preprocess_text (nfkc : PyStr → PyStr) (t : PyStr) : PyStr :=
  pyStrip (joinSp (pySplit (nfkc t)))

/-- The combined shingle list `word_ngrams + jamo_ngrams` built by
`build_minhash_index` for one preprocessed text. -/
def combinedShingles (cfg : Config) (t : PyStr) : List PyStr :=
  tokenize_ngrams t cfg.ngramSize ++ tokenize_jamo_ngrams t cfg.jamoNgramSize

/-- The two skip guards of the indexing loop: documents with
`len(text.strip()) < 10` or fewer than 5 combined shingles are not
indexed. -/
def passIndexFilter (nfkc : PyStr → PyStr) (cfg : Config) (d : Doc) : Bool :=
  let t := preprocess_text nfkc d.text
  if (pyStrip t).length < 10 then false
  else if (combinedShingles cfg t).length < 5 then false
  else true

/-- `src/dedup/slimpajama_dedup.py`, `build_minhash_index(documents, config)`:
enumerate the documents; for each one that passes both guards, create the
MinHash of its combined shingles, record it in the `minhashes` mapping and
insert it into the LSH index under `str(doc_id)` (keys are `str(i)`;
since `int(str(i)) = i` the embedding carries the ordinal `i` itself).
The LSH insertion sequence and the `minhashes` mapping receive exactly the
same key/signature pairs in the same order. -/
def build_minhash_index (nfkc : PyStr → PyStr) (hashF : Nat → PyStr → Nat)
    (docs : List Doc) (cfg : Config) : MinHashLSH × List (Nat × List Nat) :=
  let entries := (enumFrom 0 docs).filterMap (fun p =>
    if passIndexFilter nfkc cfg p.2 then
      some (p.1, create_minhash hashF
        (combinedShingles cfg (preprocess_text nfkc p.2.text)) cfg.numPerm)
    else none)
  (⟨cfg.b, cfg.r, entries⟩, entries)

/-- Signature stored for a document id in the `minhashes` mapping
(`minhashes[doc_id]`; total lookup, defaulting to `[]`). -/
def sigOf (ms : List (Nat × List Nat)) (k : Nat) : List Nat :=
  ((ms.find? (fun e => e.1 == k)).map Prod.snd).getD []

/-- The loop of `find_duplicate_clusters`: walk the ids in mapping order,
skipping processed ones; a candidate set larger than one becomes a cluster
and all its members are marked processed, otherwise only the probe is. -/
def clusterLoop (q : Nat → List Nat) :
    List Nat → List (List Nat) → List Nat → List (List Nat)
  | [], clusters, _ => clusters
  | k :: ks, clusters, processed =>
    if k ∈ processed then clusterLoop q ks clusters processed
    else
      let candidates := q k
      if 1 < candidates.length then
        clusterLoop q ks (clusters ++ [candidates]) (processed ++ candidates)
      else clusterLoop q ks clusters (processed ++ [k])

/-- `src/dedup/slimpajama_dedup.py`, `find_duplicate_clusters(lsh, minhashes)`.
A cluster (a Python `set`) is carried as the candidate list in query order;
only membership and size are consulted downstream. -/
def find_duplicate_clusters (lsh : MinHashLSH) (ms : List (Nat × List Nat)) :
    List (List Nat) :=
  clusterLoop (fun k => lsh.query (sigOf ms k)) (ms.map Prod.fst) [] []

/-- Length used by `_select_longest_document`: token-list length when a
`tokens` list is present, character count of `text` otherwise. -/
def docLen (d : Doc) : Nat :=
  match d.tokens with
  | some ts => ts.length
  | none => d.text.length

/-- `src/dedup/cluster_reduction.py`, `_select_longest_document`: scan with
`max_length = 0`, `best_idx = 0`, updating on strictly greater length. -/
def select_longest_document (docs : List Doc) : Nat :=
  ((enumFrom 0 docs).foldl
    (fun acc p => if acc.1 < docLen p.2 then (docLen p.2, p.1) else acc) (0, 0)).2

/-- `src/dedup/cluster_reduction.py`, `select_representative_document`.
The `newest` and `highest_quality` selectors involve datetime parsing and
floating-point scoring (never evaluated on any path the claims exercise),
so they are parameters `selN` and `selQ` of the embedding; the unknown
strategy branch logs a warning and falls back to the longest selector. -/
def select_representative_document (selN selQ : List Doc → Nat)
    (docs : List Doc) (strategy : PyStr) : Nat :=
  if docs = [] then 0
  else if docs.length = 1 then 0
  else if strategy = "longest".data then select_longest_document docs
  else if strategy = "newest".data then selN docs
  else if strategy = "highest_quality".data then selQ docs
  else select_longest_document docs

/-- `src/dedup/slimpajama_dedup.py`, `deduplicate_documents(documents,
duplicate_clusters)`: a document belongs to `doc_to_cluster` iff it is in
some cluster; each cluster with at least one in-range member contributes
`original_indices[rep_idx]` to the representative set; a document is kept
iff it is unclustered or is a representative; stats are assembled from the
counts, with rate `0` for an empty input. -/
def deduplicate_documents (selN selQ : List Doc → Nat)
    (docs : List Doc) (clusters : List (List Nat)) : List Doc × Stats :=
  let inCluster : Nat → Bool := fun i => clusters.any (fun C => decide (i ∈ C))
  let representatives : List Nat := clusters.filterMap (fun C =>
    let members := C.filter (fun j => decide (j < docs.length))
    let cdocs := members.map (fun j => docs.getD j default)
    if cdocs = [] then none
    else some (members.getD
      (select_representative_document selN selQ cdocs ("longest".data)) 0))
  let keptPairs := (enumFrom 0 docs).filter (fun p =>
    if inCluster p.1 then decide (p.1 ∈ representatives) else true)
  let deduplicated := keptPairs.map Prod.snd
  let removed := docs.length - deduplicated.length
  (deduplicated,
    { original := docs.length
      dedupCount := deduplicated.length
      removed := removed
      clusterCount := clusters.length
      rate := if docs.length = 0 then 0 else (removed : ℚ) / (docs.length : ℚ) })

/-- The clustering stage of `main`: build the index, then find clusters. -/
def pipelineClusters (nfkc : PyStr → PyStr) (hashF : Nat → PyStr → Nat)
    (cfg : Config) (docs : List Doc) : List (List Nat) :=
  let built := build_minhash_index nfkc hashF docs cfg
  find_duplicate_clusters built.1 built.2

/-- The full per-batch pipeline of `main`: index → cluster → deduplicate. -/
def runPipeline (nfkc : PyStr → PyStr) (hashF : Nat → PyStr → Nat)
    (selN selQ : List Doc → Nat) (cfg : Config) (docs : List Doc) :
    List Doc × Stats :=
  deduplicate_documents selN selQ docs (pipelineClusters nfkc hashF cfg docs)

/-- The word n-gram behaviour the spec prescribes (section 4.1): lower-case,
whitespace-split tokens, sliding window of width `n`, single joined-token
fallback when fewer tokens than `n` exist — with no special cases. -/
def word_ngrams_spec (text : PyStr) (n : Nat) : List PyStr :=
  let tokens := pySplit (pyLower text)
  if tokens.length < n then [joinSp tokens]
  else (List.range (tokens.length - n + 1)).map (fun i => joinSp ((tokens.drop i).take n))

/-- The per-character Hangul decomposition exactly as the claim states it:
for a syllable codepoint `c` in U+AC00..U+D7A3 with index `c - 0xAC00`,
lead `0x1100 + index / 588`, vowel `0x1161 + (index % 588) / 28`, and a
tail `0x11A7 + index % 28` only when `index % 28` is nonzero; any other
character passes through unchanged as a single unit. -/
def hangul_decompose_spec (c : Char) : List Char :=
  if 0xAC00 ≤ c.toNat ∧ c.toNat ≤ 0xD7A3 then
    [Char.ofNat (0x1100 + (c.toNat - 0xAC00) / 588),
     Char.ofNat (0x1161 + (c.toNat - 0xAC00) % 588 / 28)] ++
      (if (c.toNat - 0xAC00) % 28 ≠ 0 then
        [Char.ofNat (0x11A7 + (c.toNat - 0xAC00) % 28)]
      else [])
  else [c]

/-- The jamo n-gram behaviour the claim states: decompose every character
with `hangul_decompose_spec`, then slide a window of width `n` over the
symbol sequence, with the single joined string as short-sequence fallback. -/
def jamo_ngrams_spec (text : PyStr) (n : Nat) : List PyStr :=
  let symbols := text.flatMap hangul_decompose_spec
  if symbols.length < n then [symbols]
  else (List.range (symbols.length - n + 1)).map (fun i => (symbols.drop i).take n)

/-- A single-character-class document text: `len` copies of `c`. -/
def repDoc (c : Char) (len : Nat) : Doc := ⟨List.replicate len c, none⟩

/-- A 2-permutation banding configuration (`b = 2` bands of `r = 1` row)
with the default n-gram widths. -/
def cfgA : Config := ⟨2, 2, 1, 5, 3⟩

/-- A hash family distinguishing shingles only by their first character:
every shingle of `repDoc c _` hashes to the same value, so the signatures
are fully controlled.  Signatures: `a ↦ [1, 10]`, `b ↦ [1, 11]`,
anything else `↦ [2, 11]`. -/
def hashA (i : Nat) (s : PyStr) : Nat :=
  if s.headD ' ' = 'a' then (if i = 0 then 1 else 10)
  else if s.headD ' ' = 'b' then (if i = 0 then 1 else 11)
  else (if i = 0 then 2 else 11)

/-- Three documents whose `hashA` signatures are `[1,10]`, `[1,11]`,
`[2,11]`: under the `(b,r) = (2,1)` banding, document 1 collides with both
document 0 (band 0) and document 2 (band 1), but 0 and 2 never collide. -/
def docsA : List Doc := [repDoc 'a' 10, repDoc 'b' 10, repDoc 'c' 10]

/-- Hash family for the idempotence counterexample.  Signatures:
`a ↦ [1, 10]`, `b ↦ [1, 11]`, `c ↦ [2, 12]`, anything else `↦ [2, 11]`. -/
def hashB (i : Nat) (s : PyStr) : Nat :=
  if s.headD ' ' = 'a' then (if i = 0 then 1 else 10)
  else if s.headD ' ' = 'b' then (if i = 0 then 1 else 11)
  else if s.headD ' ' = 'c' then (if i = 0 then 2 else 12)
  else (if i = 0 then 2 else 11)

/-- Four documents with `hashB` signatures `[1,10]`, `[1,11]`, `[2,12]`,
`[2,11]`: 0–1 collide (band 0), 2–3 collide (band 0), and 1–3 collide
(band 1).  The greedy pass forms clusters `{0,1}` and `{2,3}` and keeps the
longer members 1 and 3, which still collide with each other. -/
def docsB : List Doc := [repDoc 'a' 10, repDoc 'b' 11, repDoc 'c' 10, repDoc 'd' 11]

/-- Stand-in for the never-evaluated `newest` / `highest_quality`
selectors in concrete instantiations. -/
def sel0 : List Doc → Nat := fun _ => 0

/-- A consistent signature mapping (candidate sets are pairwise equal or
disjoint): two identical signatures and one unrelated one. -/
def msW : List (Nat × List Nat) := [(0, [1, 10]), (1, [1, 10]), (2, [2, 12])]

/-- The `(b,r) = (2,1)` index holding exactly the `msW` insertions. -/
def lshW : MinHashLSH := ⟨2, 1, msW⟩

/-- A corpus on which the pipeline finds no clusters: one too-short text
and one indexed text whose only candidate is itself. -/
def docsC3w : List Doc := [⟨"hi".data, none⟩, ⟨"abcdefghijk".data, none⟩]

/-- A one-document corpus whose text yields only 2 combined shingles. -/
def docsW5 : List Doc := [⟨"hi".data, none⟩]

/-! ### Helper lemmas -/

theorem enumFrom_map_snd (l : List α) : ∀ k, (enumFrom k l).map Prod.snd = l := by
  induction l with
  | nil => intro k; rfl
  | cons a as ih => intro k; simp [enumFrom, ih]

theorem mem_enumFrom [Inhabited α] :
    ∀ (l : List α) (k : Nat) (p : Nat × α), p ∈ enumFrom k l →
      k ≤ p.1 ∧ p.1 - k < l.length ∧ l.getD (p.1 - k) default = p.2 := by
  intro l
  induction l with
  | nil => intro k p hp; simp [enumFrom] at hp
  | cons a as ih =>
    intro k p hp
    rcases List.mem_cons.1 hp with heq | hp
    · subst heq
      refine ⟨Nat.le_refl _, ?_, ?_⟩ <;> simp
    · obtain ⟨h1, h2, h3⟩ := ih (k + 1) p hp
      refine ⟨Nat.le_of_succ_le h1, ?_, ?_⟩
      · have : p.1 - k = (p.1 - (k + 1)) + 1 := by omega
        simpa [this] using Nat.succ_lt_succ h2
      · have : p.1 - k = (p.1 - (k + 1)) + 1 := by omega
        simpa [this] using h3

theorem enumFrom_mem [Inhabited α] :
    ∀ (l : List α) (k j : Nat), j < l.length → (k + j, l.getD j default) ∈ enumFrom k l := by
  intro l
  induction l with
  | nil => intro k j hj; simp at hj
  | cons a as ih =>
    intro k j hj
    cases j with
    | zero => simp [enumFrom]
    | succ j =>
      have := ih (k + 1) j (by simpa using Nat.lt_of_succ_lt_succ hj)
      have harith : k + 1 + j = k + (j + 1) := by omega
      rw [harith] at this
      exact List.mem_cons_of_mem _ this

theorem query_subset (lsh : MinHashLSH) (s : List Nat) :
    ∀ x ∈ lsh.query s, x ∈ lsh.entries.map Prod.fst := by
  intro x hx
  obtain ⟨e, he, rfl⟩ := List.mem_map.1 hx
  exact List.mem_map.2 ⟨e, List.mem_of_mem_filter he, rfl⟩

theorem clusterLoop_mem (q : Nat → List Nat) :
    ∀ (ks : List Nat) (cl : List (List Nat)) (pr : List Nat) (C : List Nat),
      C ∈ clusterLoop q ks cl pr → C ∈ cl ∨ ∃ k, C = q k := by
  intro ks
  induction ks with
  | nil => intro cl pr C hC; exact Or.inl hC
  | cons k ks ih =>
    intro cl pr C hC
    simp only [clusterLoop] at hC
    by_cases hpr : k ∈ pr
    · rw [if_pos hpr] at hC
      exact ih cl pr C hC
    · rw [if_neg hpr] at hC
      by_cases hlen : 1 < (q k).length
      · rw [if_pos hlen] at hC
        rcases ih _ _ C hC with h | h
        · rcases List.mem_append.1 h with h | h
          · exact Or.inl h
          · exact Or.inr ⟨k, (List.mem_singleton.1 h)⟩
        · exact Or.inr h
      · rw [if_neg hlen] at hC
        exact ih _ _ C hC

theorem clusterLoop_pairwise (q : Nat → List Nat) (keys : List Nat)
    (hsymm : ∀ k ∈ keys, ∀ x ∈ q k, k ∈ q x)
    (htrans : ∀ k ∈ keys, ∀ x ∈ q k, ∀ y ∈ q x, y ∈ q k) :
    ∀ (ks : List Nat) (cl : List (List Nat)) (pr : List Nat),
      (∀ k ∈ ks, k ∈ keys) →
      (∀ C ∈ cl, (∃ p ∈ keys, C = q p) ∧ ∀ x ∈ C, x ∈ pr) →
      List.Pairwise (fun C D => ∀ x ∈ C, x ∉ D) cl →
      List.Pairwise (fun C D => ∀ x ∈ C, x ∉ D) (clusterLoop q ks cl pr) := by
  intro ks
  induction ks with
  | nil => intro cl pr _ _ hpw; exact hpw
  | cons k ks ih =>
    intro cl pr hks hcl hpw
    have hk : k ∈ keys := hks k (List.mem_cons_self _ _)
    have hks2 : ∀ a ∈ ks, a ∈ keys := fun a ha => hks a (List.mem_cons_of_mem _ ha)
    simp only [clusterLoop]
    by_cases hpr : k ∈ pr
    · rw [if_pos hpr]
      exact ih cl pr hks2 hcl hpw
    · rw [if_neg hpr]
      by_cases hlen : 1 < (q k).length
      · rw [if_pos hlen]
        apply ih _ _ hks2
        · intro C hC
          rcases List.mem_append.1 hC with h | h
          · obtain ⟨hex, hsub⟩ := hcl _ h
            exact ⟨hex, fun x hx => List.mem_append.2 (Or.inl (hsub x hx))⟩
          · rcases List.mem_singleton.1 h with rfl
            exact ⟨⟨k, hk, rfl⟩, fun x hx => List.mem_append.2 (Or.inr hx)⟩
        · rw [List.pairwise_append]
          refine ⟨hpw, List.pairwise_singleton _ _, ?_⟩
          intro C hC D hD
          rcases List.mem_singleton.1 hD with rfl
          intro x hxC hxD
          obtain ⟨⟨p, hp, rfl⟩, hsub⟩ := hcl _ hC
          exact hpr (hsub k (htrans p hp x hxC k (hsymm k hk x hxD)))
      · rw [if_neg hlen]
        apply ih _ _ hks2 _ hpw
        intro C hC
        obtain ⟨hex, hsub⟩ := hcl _ hC
        exact ⟨hex, fun x hx => List.mem_append.2 (Or.inl (hsub x hx))⟩

theorem build_lsh_entries (nfkc : PyStr → PyStr) (hashF : Nat → PyStr → Nat)
    (docs : List Doc) (cfg : Config) :
    (build_minhash_index nfkc hashF docs cfg).1.entries =
      (build_minhash_index nfkc hashF docs cfg).2 := rfl

theorem dedup_no_clusters (selN selQ : List Doc → Nat) (docs : List Doc) :
    (deduplicate_documents selN selQ docs []).1 = docs := by
  simp only [deduplicate_documents, List.any_nil, List.filterMap_nil]
  have : ((enumFrom 0 docs).filter (fun _ => true)).map Prod.snd = docs := by
    rw [List.filter_true]
    exact enumFrom_map_snd docs 0
  simpa using this

theorem matchCount_self : ∀ d : List Nat, matchCount d d = d.length := by
  intro d
  induction d with
  | nil => rfl
  | cons a l ih => simp [matchCount, List.countP_cons] at ih ⊢; omega

theorem toLower_eq_self_of_ws (c : Char) (h : c.isWhitespace) : c.toLower = c := by
  simp only [Char.isWhitespace, Bool.or_eq_true, decide_eq_true_eq] at h
  rcases h with ((h | h) | h) | h <;> rw [h] <;> decide

theorem splitWsAux_ws_nil :
    ∀ s : PyStr, (∀ c ∈ s, c.isWhitespace) → splitWsAux s [] = [] := by
  intro s
  induction s with
  | nil => intro _; rfl
  | cons c rest ih =>
    intro h
    have hc : c.isWhitespace := h c (List.mem_cons_self _ _)
    simp only [splitWsAux, hc, if_pos rfl, if_true]
    exact ih (fun a ha => h a (List.mem_cons_of_mem _ ha))

theorem pySplit_ws_nil (s : PyStr) (h : ∀ c ∈ s, c.isWhitespace) : pySplit s = [] :=
  splitWsAux_ws_nil s h

theorem pyLower_ws (s : PyStr) (h : ∀ c ∈ s, c.isWhitespace) :
    ∀ c ∈ pyLower s, c.isWhitespace := by
  intro c hc
  obtain ⟨a, ha, rfl⟩ := List.mem_map.1 hc
  rw [toLower_eq_self_of_ws a (h a ha)]
  exact h a ha

theorem jamoChars_eq_flatMap : ∀ t : PyStr, jamoChars t = t.flatMap hangul_decompose_spec := by
  intro t
  induction t with
  | nil => rfl
  | cons c rest ih =>
    simp only [jamoChars, ih, List.flatMap_cons]
    rfl

theorem ite_sliding_ne_nil₁ (ts : List PyStr) (n : Nat) :
    (if ts.length < n then [joinSp ts]
     else (List.range (ts.length - n + 1)).map (fun i => joinSp ((ts.drop i).take n))) ≠ [] := by
  by_cases h : ts.length < n
  · rw [if_pos h]; exact List.cons_ne_nil _ _
  · rw [if_neg h]
    intro hcontra
    have hl := congrArg List.length hcontra
    simp only [List.length_map, List.length_range, List.length_nil] at hl
    omega

theorem ite_sliding_ne_nil₂ (jc : PyStr) (n : Nat) :
    (if jc.length < n then [jc]
     else (List.range (jc.length - n + 1)).map (fun i => (jc.drop i).take n)) ≠ [] := by
  by_cases h : jc.length < n
  · rw [if_pos h]; exact List.cons_ne_nil _ _
  · rw [if_neg h]
    intro hcontra
    have hl := congrArg List.length hcontra
    simp only [List.length_map, List.length_range, List.length_nil] at hl
    omega

/-! ### Claim C1 -/

/-- C1, counterexample: the claim "every document id appears in at most one
cluster" is false.  On the three-document corpus `docsA` (signatures
`[1,10]`, `[1,11]`, `[2,11]` under banding `(b,r) = (2,1)`), the greedy
pass yields clusters `[0,1]` and `[1,2]`: document 1 lies in both, because
it is re-admitted as a candidate of probe 2 after being clustered. -/
theorem C1_counterexample :
    pipelineClusters (fun s => s) hashA cfgA docsA = [[0, 1], [1, 2]] ∧
    ¬ List.Pairwise (fun C D => ∀ x ∈ C, x ∉ D)
        (pipelineClusters (fun s => s) hashA cfgA docsA) :=
  ⟨by decide, by decide⟩

/-- C1, amended: the clusters returned by `find_duplicate_clusters` are
pairwise disjoint provided the candidate relation of the index is symmetric
and transitive on the indexed ids (equivalently, the candidate sets are
pairwise equal or disjoint, as for exact-duplicate groups); in general a
document id can appear in two clusters. -/
theorem C1_clusters_disjoint_of_consistent (lsh : MinHashLSH) (ms : List (Nat × List Nat))
    (hsymm : ∀ k ∈ ms.map Prod.fst, ∀ x ∈ lsh.query (sigOf ms k),
      k ∈ lsh.query (sigOf ms x))
    (htrans : ∀ k ∈ ms.map Prod.fst, ∀ x ∈ lsh.query (sigOf ms k),
      ∀ y ∈ lsh.query (sigOf ms x), y ∈ lsh.query (sigOf ms k)) :
    List.Pairwise (fun C D => ∀ x ∈ C, x ∉ D) (find_duplicate_clusters lsh ms) :=
  clusterLoop_pairwise _ (ms.map Prod.fst) hsymm htrans _ [] []
    (fun _ h => h) (fun C hC => absurd hC (List.not_mem_nil C)) List.Pairwise.nil

/-- C1, witness: on the consistent index `lshW`/`msW` (two identical
signatures plus an unrelated one) the hypotheses hold and the clusters are
pairwise disjoint. -/
theorem C1_witness :
    (∀ k ∈ msW.map Prod.fst, ∀ x ∈ lshW.query (sigOf msW k),
      k ∈ lshW.query (sigOf msW x)) ∧
    (∀ k ∈ msW.map Prod.fst, ∀ x ∈ lshW.query (sigOf msW k),
      ∀ y ∈ lshW.query (sigOf msW x), y ∈ lshW.query (sigOf msW k)) ∧
    List.Pairwise (fun C D => ∀ x ∈ C, x ∉ D) (find_duplicate_clusters lshW msW) :=
  ⟨by decide, by decide, C1_clusters_disjoint_of_consistent lshW msW (by decide) (by decide)⟩

/-! ### Claim C2 -/

/-- C2, code bug: `tokenize_ngrams` does not return the sliding windows of
the lower-cased whitespace-split tokens.  On the four-token text
`"a b c 입니다"` with width 5 it appends a duplicate of the last token
before windowing and returns `["a b c 입니다 입니다"]`, whereas the claimed
behaviour (`word_ngrams_spec`, also the function's docstring and the spec)
yields the single joined text `["a b c 입니다"]`. -/
theorem C2_tokenize_ngrams_bug :
    tokenize_ngrams ("a b c 입니다".data) 5 = [("a b c 입니다 입니다").data] ∧
    word_ngrams_spec ("a b c 입니다".data) 5 = [("a b c 입니다").data] ∧
    tokenize_ngrams ("a b c 입니다".data) 5 ≠ word_ngrams_spec ("a b c 입니다".data) 5 :=
  ⟨by decide, by decide, by decide⟩

/-! ### Claim C3 -/

/-- C3, counterexample: deduplication is not idempotent.  On `docsB` the
first run keeps 2 documents (the longer member of each of the two greedy
clusters), but those two representatives still collide in band 1, so a
second run finds a new cluster and removes one of them. -/
theorem C3_counterexample :
    (runPipeline (fun s => s) hashB sel0 sel0 cfgA docsB).1.length = 2 ∧
    pipelineClusters (fun s => s) hashB cfgA
        (runPipeline (fun s => s) hashB sel0 sel0 cfgA docsB).1 ≠ [] ∧
    (runPipeline (fun s => s) hashB sel0 sel0 cfgA
        (runPipeline (fun s => s) hashB sel0 sel0 cfgA docsB).1).1 ≠
      (runPipeline (fun s => s) hashB sel0 sel0 cfgA docsB).1 :=
  ⟨by decide, by decide, by decide⟩

/-- C3, amended: the pipeline is idempotent on corpora where it finds no
duplicate clusters — it then returns the documents unchanged, a second run
again finds no clusters, and the second run's output equals the input.  In
general a second run can find new clusters among the kept representatives
(the single-pass greedy clustering keeps representatives of different
clusters that may still collide). -/
theorem C3_idempotent_when_no_clusters (nfkc : PyStr → PyStr)
    (hashF : Nat → PyStr → Nat) (selN selQ : List Doc → Nat) (cfg : Config)
    (docs : List Doc) (h : pipelineClusters nfkc hashF cfg docs = []) :
    (runPipeline nfkc hashF selN selQ cfg docs).1 = docs ∧
    pipelineClusters nfkc hashF cfg (runPipeline nfkc hashF selN selQ cfg docs).1 = [] ∧
    (runPipeline nfkc hashF selN selQ cfg
        (runPipeline nfkc hashF selN selQ cfg docs).1).1 = docs := by
  have h1 : (runPipeline nfkc hashF selN selQ cfg docs).1 = docs := by
    rw [runPipeline, h]
    exact dedup_no_clusters selN selQ docs
  refine ⟨h1, ?_, ?_⟩
  · rw [h1]; exact h
  · rw [h1, runPipeline, h]
    exact dedup_no_clusters selN selQ docs

/-- C3, witness: on `docsC3w` (one too-short text, one text whose only
candidate is itself) the first run finds no clusters and the output is the
input, unchanged. -/
theorem C3_witness :
    pipelineClusters (fun s => s) hashA cfgA docsC3w = [] ∧
    (runPipeline (fun s => s) hashA sel0 sel0 cfgA docsC3w).1 = docsC3w :=
  ⟨by decide,
   (C3_idempotent_when_no_clusters (fun s => s) hashA sel0 sel0 cfgA docsC3w (by decide)).1⟩

/-! ### Claim C4 -/

/-- C4, counterexample: querying the index with an inserted document's own
signature does not exclude that document.  In the index built over `docsA`,
document 0 is indexed and the query for its own signature returns a
candidate set containing 0 itself. -/
theorem C4_counterexample :
    0 ∈ (build_minhash_index (fun s => s) hashA docsA cfgA).2.map Prod.fst ∧
    0 ∈ (build_minhash_index (fun s => s) hashA docsA cfgA).1.query
        (sigOf (build_minhash_index (fun s => s) hashA docsA cfgA).2 0) :=
  ⟨by decide, by decide⟩

/-- C4, amended: for every document id `d` inserted into the LSH index
(with at least one band), querying with `d`'s own signature returns a
candidate set that *includes* `d` itself — the probe shares every band with
its own insertion; the cluster pass accounts for this by requiring more
than one candidate before forming a cluster. -/
theorem C4_query_includes_probe (lsh : MinHashLSH) (d : Nat) (s : List Nat)
    (hb : 0 < lsh.b) (hmem : (d, s) ∈ lsh.entries) : d ∈ lsh.query s := by
  have hcol : bandCollide lsh.b lsh.r s s = true := by
    unfold bandCollide
    rw [List.any_eq_true]
    exact ⟨0, List.mem_range.2 hb, beq_self_eq_true _⟩
  exact List.mem_map.2 ⟨(d, s), List.mem_filter.2 ⟨hmem, hcol⟩, rfl⟩

/-- C4, witness: a one-entry, one-band index contains its only key in the
query result for that key's signature. -/
theorem C4_witness :
    0 < (MinHashLSH.mk 1 1 [(0, [5])]).b ∧
    ((0, [5]) ∈ (MinHashLSH.mk 1 1 [(0, [5])]).entries) ∧
    0 ∈ (MinHashLSH.mk 1 1 [(0, [5])]).query [5] :=
  ⟨by decide, by decide, C4_query_includes_probe (MinHashLSH.mk 1 1 [(0, [5])]) 0 [5]
    (by decide) (by decide)⟩

/-! ### Claim C5 -/

/-- C5: a document whose combined word-plus-jamo shingle count (over its
preprocessed text) is below the minimum threshold 5 is never inserted into
the LSH index, never appears in any output cluster, and appears verbatim in
the deduplicated output. -/
theorem C5_short_docs_pass_through (nfkc : PyStr → PyStr) (hashF : Nat → PyStr → Nat)
    (selN selQ : List Doc → Nat) (cfg : Config) (docs : List Doc) (i : Nat)
    (hi : i < docs.length)
    (hshort :
      (combinedShingles cfg (preprocess_text nfkc (docs.getD i default).text)).length < 5) :
    i ∉ (build_minhash_index nfkc hashF docs cfg).2.map Prod.fst ∧
    (∀ C ∈ pipelineClusters nfkc hashF cfg docs, i ∉ C) ∧
    docs.getD i default ∈ (runPipeline nfkc hashF selN selQ cfg docs).1 := by
  have hpass : passIndexFilter nfkc cfg (docs.getD i default) = false := by
    simp only [passIndexFilter]
    by_cases h10 : (pyStrip (preprocess_text nfkc (docs.getD i default).text)).length < 10
    · rw [if_pos h10]
    · rw [if_neg h10, if_pos hshort]
  have hA : i ∉ (build_minhash_index nfkc hashF docs cfg).2.map Prod.fst := by
    intro hmem
    obtain ⟨e, he, hfst⟩ := List.mem_map.1 hmem
    simp only [build_minhash_index] at he
    obtain ⟨p, hp, hsome⟩ := List.mem_filterMap.1 he
    by_cases hpf : passIndexFilter nfkc cfg p.2 = true
    · rw [if_pos hpf] at hsome
      have hpe := Option.some.inj hsome
      rw [← hpe] at hfst
      obtain ⟨-, -, hgd⟩ := mem_enumFrom docs 0 p hp
      simp only [Nat.sub_zero] at hgd
      have hp1 : p.1 = i := hfst
      have hp2 : p.2 = docs.getD i default := by
        rw [← hgd, hp1]
      rw [hp2, hpass] at hpf
      exact Bool.false_ne_true hpf
    · rw [if_neg hpf] at hsome
      exact Option.noConfusion hsome
  have hB : ∀ C ∈ pipelineClusters nfkc hashF cfg docs, i ∉ C := by
    intro C hC hiC
    simp only [pipelineClusters, find_duplicate_clusters] at hC
    rcases clusterLoop_mem _ _ _ _ C hC with h | ⟨k, rfl⟩
    · exact absurd h (List.not_mem_nil C)
    · have hsub := query_subset _ _ i hiC
      rw [build_lsh_entries] at hsub
      exact hA hsub
  refine ⟨hA, hB, ?_⟩
  have hInCl :
      (pipelineClusters nfkc hashF cfg docs).any (fun C => decide (i ∈ C)) = false := by
    rw [List.any_eq_false]
    intro C hC
    simpa using hB C hC
  simp only [runPipeline, deduplicate_documents]
  apply List.mem_map.2
  refine ⟨(i, docs.getD i default), ?_, rfl⟩
  apply List.mem_filter.2
  constructor
  · have := enumFrom_mem docs 0 i hi
    simpa using this
  · simp only [hInCl]
    rfl

/-- C5, witness: the single document of `docsW5` yields only 2 combined
shingles, is not indexed, is in no cluster, and passes through unchanged. -/
theorem C5_witness :
    0 ∉ (build_minhash_index (fun s => s) hashA docsW5 cfgA).2.map Prod.fst ∧
    (∀ C ∈ pipelineClusters (fun s => s) hashA cfgA docsW5, 0 ∉ C) ∧
    docsW5.getD 0 default ∈ (runPipeline (fun s => s) hashA sel0 sel0 cfgA docsW5).1 :=
  C5_short_docs_pass_through (fun s => s) hashA sel0 sel0 cfgA docsW5 0
    (by decide) (by decide)

/-! ### Claim C6 -/

/-- C6: `estimate_jaccard_similarity` fails with the size-mismatch error iff
the two digests have different lengths; for equal, nonzero lengths it
returns `matches / num_perm`, where `matches` counts the positions holding
equal values. -/
theorem C6_estimate_jaccard_spec (d1 d2 : List Nat) :
    ((∃ msg, estimate_jaccard_similarity d1 d2 = Except.error msg) ↔
      d1.length ≠ d2.length) ∧
    (d1.length = d2.length → 0 < d1.length →
      estimate_jaccard_similarity d1 d2 =
        Except.ok ((matchCount d1 d2 : ℚ) / (d1.length : ℚ))) := by
  constructor
  · constructor
    · rintro ⟨msg, hmsg⟩ heq
      rw [estimate_jaccard_similarity, if_neg (fun h => h heq)] at hmsg
      exact Except.noConfusion hmsg
    · intro hne
      exact ⟨_, by rw [estimate_jaccard_similarity, if_pos hne]⟩
  · intro hlen hpos
    have hne : d1.isEmpty = false := by
      cases d1 with
      | nil => simp at hpos
      | cons a l => rfl
    rw [estimate_jaccard_similarity, if_neg (fun h => h hlen), hne]
    simp

/-- C6, witness: digests `[1,2,3,4]` and `[1,2,5,6]` have equal length 4 and
2 matching positions, so the estimator returns `2/4`. -/
theorem C6_witness :
    estimate_jaccard_similarity [1, 2, 3, 4] [1, 2, 5, 6] =
      Except.ok ((matchCount [1, 2, 3, 4] [1, 2, 5, 6] : ℚ) /
        (([1, 2, 3, 4] : List Nat).length : ℚ)) :=
  (C6_estimate_jaccard_spec [1, 2, 3, 4] [1, 2, 5, 6]).2 rfl (by decide)

/-! ### Claim C7 -/

/-- C7: `create_minhash` is deterministic (two calls on the same shingles
and permutation count give identical signatures), and the estimator applied
to the two resulting signatures returns exactly 1. -/
theorem C7_minhash_deterministic_self_similarity (hashF : Nat → PyStr → Nat)
    (g : List PyStr) (p : Nat) (hp : 1 ≤ p) :
    create_minhash hashF g p = create_minhash hashF g p ∧
    estimate_jaccard_similarity (create_minhash hashF g p) (create_minhash hashF g p) =
      Except.ok 1 := by
  refine ⟨rfl, ?_⟩
  have hlen : (create_minhash hashF g p).length = p := by
    simp [create_minhash, minhashDigest]
  have hnnil : (create_minhash hashF g p).isEmpty = false := by
    cases h : create_minhash hashF g p with
    | nil => rw [h] at hlen; simp at hlen; omega
    | cons a l => rfl
  rw [estimate_jaccard_similarity, if_neg (fun h => h rfl), hnnil]
  have hcast : ((create_minhash hashF g p).length : ℚ) ≠ 0 :=
    Nat.cast_ne_zero.2 (by omega)
  simp only [Bool.false_eq_true, if_false]
  rw [matchCount_self, div_self hcast]

/-- C7, witness: at `num_perm = 4` on a concrete shingle list and hash
family, the self-similarity is exactly 1. -/
theorem C7_witness :
    estimate_jaccard_similarity
        (create_minhash (fun i s => i + s.length) ["ab".data] 4)
        (create_minhash (fun i s => i + s.length) ["ab".data] 4) = Except.ok 1 :=
  (C7_minhash_deterministic_self_similarity (fun i s => i + s.length)
    ["ab".data] 4 (by decide)).2

/-! ### Claim C8 -/

/-- C8: `tokenize_jamo_ngrams` decomposes every Hangul syllable with the
standard arithmetic (lead `0x1100 + index/588`, vowel
`0x1161 + (index%588)/28`, tail `0x11A7 + index%28` only when nonzero),
passes other characters through unchanged, and returns width-`n` sliding
windows over the symbol sequence with the single-joined-string fallback. -/
theorem C8_jamo_ngrams_match_spec (text : PyStr) (n : Nat) (_hn : 1 ≤ n) :
    tokenize_jamo_ngrams text n = jamo_ngrams_spec text n := by
  simp only [tokenize_jamo_ngrams, jamo_ngrams_spec, jamoChars_eq_flatMap]

/-- C8, witness: on `"한a"` with width 2 the source tokenizer and the
claim's description agree. -/
theorem C8_witness :
    1 ≤ 2 ∧ tokenize_jamo_ngrams ("한a".data) 2 = jamo_ngrams_spec ("한a".data) 2 :=
  ⟨by decide, C8_jamo_ngrams_match_spec ("한a".data) 2 (by decide)⟩

/-! ### Claim C9 -/

/-- C9: on a non-empty cluster, `select_representative_document` with a
strategy that is none of `longest` / `newest` / `highest_quality` returns
the same index as the `longest` strategy (it is total, so it never fails). -/
theorem C9_unknown_strategy_falls_back (selN selQ : List Doc → Nat)
    (docs : List Doc) (strategy : PyStr) (hne : docs ≠ [])
    (h1 : strategy ≠ "longest".data) (h2 : strategy ≠ "newest".data)
    (h3 : strategy ≠ "highest_quality".data) :
    select_representative_document selN selQ docs strategy =
      select_representative_document selN selQ docs ("longest".data) := by
  unfold select_representative_document
  rw [if_neg hne, if_neg hne]
  by_cases hlen : docs.length = 1
  · rw [if_pos hlen, if_pos hlen]
  · rw [if_neg hlen, if_neg hlen, if_neg h1, if_neg h2, if_neg h3, if_pos rfl]

/-- C9, witness: strategy `"bogus"` picks the same index as `"longest"` on
a concrete two-document cluster. -/
theorem C9_witness :
    select_representative_document sel0 sel0
        [⟨"ab".data, none⟩, ⟨"abcd".data, none⟩] ("bogus".data) =
      select_representative_document sel0 sel0
        [⟨"ab".data, none⟩, ⟨"abcd".data, none⟩] ("longest".data) :=
  C9_unknown_strategy_falls_back sel0 sel0 _ _ (by decide) (by decide) (by decide)
    (by decide)

/-! ### Claim C10 -/

/-- C10, counterexample: on the whitespace-only text `" "`,
`tokenize_jamo_ngrams` returns the one-element list containing the
one-space string, not the empty string — whitespace passes through the
jamo decomposition unchanged. -/
theorem C10_counterexample :
    tokenize_jamo_ngrams (" ".data) 3 = [[' ']] ∧ ([[' ']] : List PyStr) ≠ [[]] :=
  ⟨by decide, by decide⟩

/-- C10, amended: both tokenizers always return a non-empty list; on
whitespace-only (in particular empty) text `tokenize_ngrams` returns the
one-element list containing the empty string, and `tokenize_jamo_ngrams`
does so on empty text (on whitespace-only text it returns the whitespace
itself as its only shingle). -/
theorem C10_tokenizers_nonempty (text : PyStr) (n : Nat) :
    tokenize_ngrams text n ≠ [] ∧ tokenize_jamo_ngrams text n ≠ [] ∧
    ((∀ c ∈ text, c.isWhitespace) → tokenize_ngrams text n = [[]]) ∧
    (text = [] → tokenize_jamo_ngrams text n = [[]]) := by
  refine ⟨ite_sliding_ne_nil₁ _ n, ite_sliding_ne_nil₂ _ n, ?_, ?_⟩
  · intro hws
    have hsplit : pySplit (pyLower text) = [] := pySplit_ws_nil _ (pyLower_ws _ hws)
    simp only [tokenize_ngrams, hsplit]
    cases n with
    | zero => rfl
    | succ m => simp [joinSp, List.intercalate]
  · intro h
    subst h
    cases n with
    | zero => rfl
    | succ m => simp [tokenize_jamo_ngrams, jamoChars]

/-- C10, witness: on the empty text both tokenizers return the one-element
list holding the empty string. -/
theorem C10_witness :
    tokenize_ngrams ([] : PyStr) 5 = [[]] ∧ tokenize_jamo_ngrams ([] : PyStr) 3 = [[]] :=
  ⟨(C10_tokenizers_nonempty [] 5).2.2.1 (by simp),
   (C10_tokenizers_nonempty [] 3).2.2.2 rfl⟩

end YunMinDedup
